import Mathlib

/-!
Shallow embedding of the stock/price synchronisation logic of the two
marketplace modules (`seller.py` for Ozon, `market.py` for Yandex Market).

Pure reconciliation functions (`create_stocks`, `create_prices`,
`price_conversion`, `divide`) are translated directly from the source.
Effectful steps (HTTP fetches, submissions, environment loading, the
downloaded inventory feed, the timestamp) are modelled by passing their
results in as parameters; a step that can raise is modelled with
`Option`/`Except`.  Python strings are modelled as `String` (with the
character-level work done on `String.data`), Python `int` values as `Int`.
-/

/-- A row of the inventory feed (`watch_remnants`).  Field `code` models
`str(row["Код"])`, `quantity` models `str(row["Количество"])` and
`price` models `row["Цена"]` (the raw price text). -/
structure InventoryRow where
  code : String
  quantity : String
  price : String
deriving DecidableEq, Repr

/-- Value of a run of ASCII digit characters read in base 10. -/
def digitsVal (l : List Char) : Nat :=
  l.foldl (fun n c => 10 * n + (c.toNat - 48)) 0

/-- Core of Python `int(s)` on a decimal string with surrounding whitespace
already removed: an optional sign followed by a non-empty run of ASCII
digits; anything else raises `ValueError`, modelled as `none`. -/
def pyIntCore : List Char → Option Int
  | [] => none
  | '+' :: rest =>
      if rest ≠ [] ∧ rest.all Char.isDigit then some (digitsVal rest) else none
  | '-' :: rest =>
      if rest ≠ [] ∧ rest.all Char.isDigit then some (-(digitsVal rest : Int)) else none
  | l =>
      if l.all Char.isDigit then some (digitsVal l) else none

/-- Strip leading and trailing whitespace, as Python `int` does before
parsing. -/
def trimWs (l : List Char) : List Char :=
  ((l.dropWhile Char.isWhitespace).reverse.dropWhile Char.isWhitespace).reverse

/-- Python `int(s)` on a string: `none` models a raised `ValueError`. -/
def pyInt (s : String) : Option Int :=
  pyIntCore (trimWs s.data)

/-- Python `s.split(".")` (split on every literal dot; always returns a
non-empty list of pieces, empty pieces included). -/
def pySplitDot : List Char → List (List Char)
  | [] => [[]]
  | c :: rest =>
      if c = '.' then [] :: pySplitDot rest
      else
        match pySplitDot rest with
        | [] => [[c]]
        | s :: ss => (c :: s) :: ss

/-- `price_conversion` from `seller.py`:
`re.sub("[^0-9]", "", price.split(".")[0])` — take the piece before the
first literal `.` and delete every character that is not an ASCII digit
(the regex class `[0-9]` is exactly `Char.isDigit`). -/
def price_conversion (price : String) : String :=
  ⟨((pySplitDot price.data).headD []).filter Char.isDigit⟩

/-- `divide(lst, n)` from `seller.py`: the slices `lst[i : i + n]` for
`i in range(0, len(lst), n)`; for positive `n` the range has
`⌈len(lst) / n⌉` elements. -/
def divide (lst : List α) (n : Nat) : List (List α) :=
  (List.range' 0 ((lst.length + n - 1) / n) n).map fun i => (lst.drop i).take n

/-- The quantity branch shared by both `create_stocks` variants:
`">10"` becomes 100, `"1"` becomes 0, anything else goes through
Python `int`. -/
def resolveCount (q : String) : Option Int :=
  if q = ">10" then some 100
  else if q = "1" then some 0
  else pyInt q

/-- A stock record of `seller.create_stocks`:
`{"offer_id": ..., "stock": ...}`. -/
structure StockRecord where
  offer_id : String
  stock : Int
deriving DecidableEq, Repr

namespace Seller

/-- The matching loop of `seller.create_stocks`: for each row whose code is
in the current `offer_ids`, resolve the count, append a record and remove
the code from `offer_ids` (Python `list.remove` drops the first
occurrence, as `List.erase` does).  Returns the matched records together
with the final state of `offer_ids`. -/
def matchStocks : List InventoryRow → List String → Option (List StockRecord × List String)
  | [], ids => some ([], ids)
  | w :: ws, ids =>
      if w.code ∈ ids then
        match resolveCount w.quantity with
        | none => none
        | some st =>
            match matchStocks ws (ids.erase w.code) with
            | none => none
            | some (recs, ids') => some (⟨w.code, st⟩ :: recs, ids')
      else matchStocks ws ids

/-- `seller.create_stocks`: the matching loop followed by the fallback loop
appending a zero-stock record for every offer id left in the (mutated)
`offer_ids` list.  The result carries both the stock list and the final
state of the caller's `offer_ids` list, since the source mutates it
in place. -/
def create_stocks (watch_remnants : List InventoryRow) (offer_ids : List String) :
    Option (List StockRecord × List String) :=
  (matchStocks watch_remnants offer_ids).map fun p =>
    (p.1 ++ p.2.map (fun i => ⟨i, 0⟩), p.2)

/-- A price record of `seller.create_prices` (dict fields in source order);
`price` stays a string: `price_conversion`'s result is used unparsed. -/
structure PriceRecord where
  auto_action_enabled : String
  currency_code : String
  offer_id : String
  old_price : String
  price : String
deriving DecidableEq, Repr

/-- The record `seller.create_prices` builds for one matched row. -/
def priceRecordOf (w : InventoryRow) : PriceRecord :=
  ⟨"UNKNOWN", "RUB", w.code, "0", price_conversion w.price⟩

/-- `seller.create_prices`: one record per row whose code is in
`offer_ids`; `offer_ids` is only read, never written. -/
def create_prices : List InventoryRow → List String → List PriceRecord
  | [], _ => []
  | w :: ws, offer_ids =>
      if w.code ∈ offer_ids then priceRecordOf w :: create_prices ws offer_ids
      else create_prices ws offer_ids

/-- `seller.create_prices` with the `offer_ids` variable threaded through
the loop explicitly, mirroring that no statement of the source body ever
assigns to or mutates it: the second component is the list the caller
sees after the call. -/
def create_prices_loop : List InventoryRow → List String → List PriceRecord × List String
  | [], offer_ids => ([], offer_ids)
  | w :: ws, offer_ids =>
      let rest := create_prices_loop ws offer_ids
      (if w.code ∈ offer_ids then priceRecordOf w :: rest.1 else rest.1, rest.2)

end Seller

namespace Market

/-- An element of the `items` list of a Yandex stock record. -/
structure StockItem where
  count : Int
  itemType : String
  updatedAt : String
deriving DecidableEq, Repr

/-- A stock record of `market.create_stocks`:
`{"sku": ..., "warehouseId": ..., "items": [...]}`. -/
structure StockRecord where
  sku : String
  warehouseId : String
  items : List StockItem
deriving DecidableEq, Repr

/-- The record `market.create_stocks` appends for sku `s` with count `c`
(`date` is the timestamp string computed once before the loop). -/
def stockRecordOf (warehouse_id date s : String) (c : Int) : StockRecord :=
  ⟨s, warehouse_id, [⟨c, "FIT", date⟩]⟩

/-- The matching loop of `market.create_stocks`; identical control flow to
the Ozon variant, different record shape. -/
def matchStocks (warehouse_id date : String) :
    List InventoryRow → List String → Option (List StockRecord × List String)
  | [], ids => some ([], ids)
  | w :: ws, ids =>
      if w.code ∈ ids then
        match resolveCount w.quantity with
        | none => none
        | some st =>
            match matchStocks warehouse_id date ws (ids.erase w.code) with
            | none => none
            | some (recs, ids') =>
            some (stockRecordOf warehouse_id date w.code st :: recs, ids')
      else matchStocks warehouse_id date ws ids

/-- `market.create_stocks`: matching loop plus the zero-count fallback loop
over the remaining `offer_ids`; the second component is the final state of
the caller's `offer_ids` list (mutated in place by the source). -/
def create_stocks (watch_remnants : List InventoryRow) (offer_ids : List String)
    (warehouse_id date : String) : Option (List StockRecord × List String) :=
  (matchStocks warehouse_id date watch_remnants offer_ids).map fun p =>
    (p.1 ++ p.2.map (fun i => stockRecordOf warehouse_id date i 0), p.2)

/-- The `price` sub-dict of a Yandex price record. -/
structure PriceValue where
  value : Int
  currencyId : String
deriving DecidableEq, Repr

/-- A price record of `market.create_prices`:
`{"id": ..., "price": {"value": ..., "currencyId": "RUR"}}`. -/
structure PriceRecord where
  id : String
  price : PriceValue
deriving DecidableEq, Repr

/-- `market.create_prices`: one record per row whose code is in
`offer_ids`; the record's value is `int(price_conversion(row["Цена"]))`,
whose `ValueError` is modelled by `none`. -/
def create_prices : List InventoryRow → List String → Option (List PriceRecord)
  | [], _ => some []
  | w :: ws, offer_ids =>
      if w.code ∈ offer_ids then
        match pyInt (price_conversion w.price) with
        | none => none
        | some v =>
            match create_prices ws offer_ids with
            | none => none
            | some ps => some (⟨w.code, ⟨v, "RUR"⟩⟩ :: ps)
      else create_prices ws offer_ids

end Market

/-- Spec-side reference for the price normalizer (spec §4.1/§8): the
digit-filtered prefix of the string up to the first `.`. -/
def specNormalize (s : String) : String :=
  ⟨(s.data.takeWhile (fun c => c ≠ '.')).filter Char.isDigit⟩

/-- Spec-side reference for the matched part of the stock builder
(spec §4.3): first match wins, tracked with an explicit `seen` accumulator
instead of removal from the working set. -/
def specMatched : List InventoryRow → List String → List String → Option (List StockRecord)
  | [], _, _ => some []
  | w :: ws, ids, seen =>
      if w.code ∈ ids ∧ w.code ∉ seen then
        match resolveCount w.quantity with
        | none => none
        | some st =>
            match specMatched ws ids (w.code :: seen) with
            | none => none
            | some recs => some (⟨w.code, st⟩ :: recs)
      else specMatched ws ids seen

/-- Spec-side reference for the whole stock-builder output (spec §4.3
order guarantee): matched records in inventory order, then a zero-count
record for every original offer id with no match, in the original
collection's order. -/
def specStocks (rows : List InventoryRow) (ids : List String) : Option (List StockRecord) :=
  (specMatched rows ids []).map fun m =>
    m ++ (ids.filter (fun i => decide (i ∉ m.map StockRecord.offer_id))).map (fun i => ⟨i, 0⟩)

/-- The exceptions the entry points can observe: `requests` read timeout,
`requests` connection error, or any other `Exception` (with its message). -/
inductive PyErr where
  | readTimeout : PyErr
  | connError : String → PyErr
  | other : String → PyErr
deriving DecidableEq, Repr

/-- A raised `ValueError` from `int(...)` surfacing out of a pure helper. -/
def exceptOfOption : Option α → Except PyErr α
  | some a => Except.ok a
  | none => Except.error (PyErr.other "ValueError")

/-- The three `except` clauses shared by both entry points: every error is
swallowed and turned into a printed message; a normal body produces no
message.  The surrounding `main` returns normally in all four cases. -/
def catchAll : Except PyErr Unit → Option String
  | Except.ok _ => none
  | Except.error PyErr.readTimeout => some "Превышено время ожидания..."
  | Except.error (PyErr.connError m) => some (m ++ " Ошибка соединения")
  | Except.error (PyErr.other m) => some (m ++ " ERROR_2")

/-- Submit each batch in turn; any batch's exception aborts the rest. -/
def submitBatches (submit : List β → Except PyErr Unit) :
    List (List β) → Except PyErr Unit
  | [] => Except.ok ()
  | b :: bs => do
      let _ ← submit b
      submitBatches submit bs

namespace Seller

/-- The pure data flow of the `try` body of `seller.main` (lines 379-386):
`offer_ids` is fetched once and the same list object is passed first to
`create_stocks` — which removes every matched code from it — and then to
`create_prices`.  Result: the stock list and the price list `main`
builds. -/
def mainCore (rows : List InventoryRow) (ids : List String) :
    Option (List StockRecord × List PriceRecord) :=
  (create_stocks rows ids).map fun sp => (sp.1, create_prices rows sp.2)

/-- The `try` body of `seller.main`: fetch offer ids, download the feed,
build and submit stocks in batches of 100, build prices from the mutated
`offer_ids` list, submit them in batches of 900.  Results of the
effectful steps are passed in. -/
def tryBody (offerIdsRes : Except PyErr (List String))
    (feedRes : Except PyErr (List InventoryRow))
    (submitStocks : List StockRecord → Except PyErr Unit)
    (submitPrices : List PriceRecord → Except PyErr Unit) : Except PyErr Unit := do
  let ids ← offerIdsRes
  let rows ← feedRes
  let sp ← exceptOfOption (create_stocks rows ids)
  let _ ← submitBatches submitStocks (divide sp.1 100)
  let prices := create_prices rows sp.2
  submitBatches submitPrices (divide prices 900)

/-- `seller.main`: the two `env.str` reads happen before the `try` (their
failure propagates); everything inside the `try` is trapped by the three
`except` clauses, and `main` then returns normally with the printed
message, if any. -/
def main (envRes : Except PyErr (String × String))
    (offerIdsRes : Except PyErr (List String))
    (feedRes : Except PyErr (List InventoryRow))
    (submitStocks : List StockRecord → Except PyErr Unit)
    (submitPrices : List PriceRecord → Except PyErr Unit) :
    Except PyErr (Option String) := do
  let _ ← envRes
  pure (catchAll (tryBody offerIdsRes feedRes submitStocks submitPrices))

end Seller

namespace Market

/-- The environment variables `market.main` reads before its `try`. -/
structure Env where
  market_token : String
  campaign_fbs_id : String
  campaign_dbs_id : String
  warehouse_fbs_id : String
  warehouse_dbs_id : String
deriving DecidableEq, Repr

/-- The `try` body of `market.main`: for each of the two campaigns, fetch
offer ids, build and submit stocks in batches of 2000.  The
`upload_prices(...)` statements are calls of an `async def` without
`await` from the synchronous `main`: in Python each such call only builds
a coroutine object and never runs the body, so they contribute nothing
here. -/
def tryBody (cfg : Env) (date : String)
    (fbsIdsRes dbsIdsRes : Except PyErr (List String))
    (rows : List InventoryRow)
    (submitStocks : List StockRecord → Except PyErr Unit) : Except PyErr Unit := do
  let fids ← fbsIdsRes
  let sF ← exceptOfOption (create_stocks rows fids cfg.warehouse_fbs_id date)
  let _ ← submitBatches submitStocks (divide sF.1 2000)
  let dids ← dbsIdsRes
  let sD ← exceptOfOption (create_stocks rows dids cfg.warehouse_dbs_id date)
  submitBatches submitStocks (divide sD.1 2000)

/-- `market.main`: the five `env.str` reads and — unlike the Ozon variant —
the `download_stock()` feed download happen before the `try`, so their
failures propagate; everything inside the `try` is trapped and `main`
returns normally with the printed message, if any. -/
def main (envRes : Except PyErr Env)
    (feedRes : Except PyErr (List InventoryRow)) (date : String)
    (fbsIdsRes dbsIdsRes : Except PyErr (List String))
    (submitStocks : List StockRecord → Except PyErr Unit) :
    Except PyErr (Option String) := do
  let cfg ← envRes
  let rows ← feedRes
  pure (catchAll (tryBody cfg date fbsIdsRes dbsIdsRes rows submitStocks))

end Market

/-- One submission the orchestration sends to the Yandex API. -/
inductive ApiCall where
  | stockBatch : List Market.StockRecord → ApiCall
  | priceBatch : List Market.PriceRecord → ApiCall
deriving DecidableEq, Repr

/-- Whether a call is a price-update submission. -/
def ApiCall.isPriceBatch : ApiCall → Bool
  | ApiCall.priceBatch _ => true
  | ApiCall.stockBatch _ => false

namespace Market

/-- The submissions the body of `async def upload_prices` performs when it
actually runs: build the price records and submit them in batches
of 500 (`none` models a raised `ValueError`). -/
def upload_prices_calls (rows : List InventoryRow) (ids : List String) :
    Option (List ApiCall) :=
  (create_prices rows ids).map fun ps => (divide ps 500).map ApiCall.priceBatch

/-- The submissions a successful run of `market.main` actually performs:
the stock batches for both campaigns and nothing else — the two
`upload_prices(...)` statements lack `await`, so their coroutines are
created and discarded without ever executing, and no price submission is
sent. -/
def main_calls (cfg : Env) (date : String) (rows : List InventoryRow)
    (fbsIds dbsIds : List String) : Option (List ApiCall) :=
  (create_stocks rows fbsIds cfg.warehouse_fbs_id date).bind fun sF =>
  (create_stocks rows dbsIds cfg.warehouse_dbs_id date).bind fun sD =>
  some ((divide sF.1 2000).map ApiCall.stockBatch ++
        (divide sD.1 2000).map ApiCall.stockBatch)

end Market

/-- The Yandex stock record carrying the same offer id and count as an
Ozon one (used to relate the two `create_stocks` variants). -/
def toMarketStock (warehouse_id date : String) (r : StockRecord) : Market.StockRecord :=
  Market.stockRecordOf warehouse_id date r.offer_id r.stock

/-- C10: on a matched row whose price has no digit before the first `.`,
`market.create_prices` raises (`int("")` is a `ValueError`, modelled as
`none`) while `seller.create_prices` returns normally with the record's
price equal to the empty string. -/
theorem C10_price_builders_diverge :
    Market.create_prices [⟨"1", "5", ".50"⟩] ["1"] = none ∧
    Seller.create_prices [⟨"1", "5", ".50"⟩] ["1"]
      = [⟨"UNKNOWN", "RUB", "1", "0", ""⟩] := by
  decide

/-- C2: the data flow of `seller.main` at a concrete run with one inventory
row matching the single fetched offer id.  `create_stocks` empties the
shared `offer_ids` list, so the price list `main` builds is empty, while
`create_prices` applied to the full fetched offer-id list produces the
price record for the matched row. -/
theorem C2_seller_main_prices_empty :
    Seller.mainCore [⟨"1", "5", "1000"⟩] ["1"]
      = some ([⟨"1", 5⟩], []) ∧
    Seller.create_prices [⟨"1", "5", "1000"⟩] ["1"]
      = [⟨"UNKNOWN", "RUB", "1", "0", "1000"⟩] := by
  decide

/-- C3: in a fully successful run of `market.main` with one matching row
per campaign, the submissions actually performed are the two stock
batches and nothing else — no price batch is ever sent, because
`upload_prices` is called without `await`; had its body run, it would
have submitted one price batch. -/
theorem C3_market_main_never_submits_prices :
    Market.main_calls ⟨"tok", "fbs", "dbs", "wf", "wd"⟩ "2024-01-01T00:00:00Z"
        [⟨"1", "5", "100"⟩] ["1"] ["1"]
      = some [ApiCall.stockBatch [Market.stockRecordOf "wf" "2024-01-01T00:00:00Z" "1" 5],
              ApiCall.stockBatch [Market.stockRecordOf "wd" "2024-01-01T00:00:00Z" "1" 5]] ∧
    (∀ c ∈ (Market.main_calls ⟨"tok", "fbs", "dbs", "wf", "wd"⟩ "2024-01-01T00:00:00Z"
        [⟨"1", "5", "100"⟩] ["1"] ["1"]).getD [], c.isPriceBatch = false) ∧
    Market.upload_prices_calls [⟨"1", "5", "100"⟩] ["1"]
      = some [ApiCall.priceBatch [⟨"1", ⟨100, "RUR"⟩⟩]] := by
  decide

/-- C4 counterexample: a feed-download failure in `market.main` is raised
before the `try` block, so `main` propagates it instead of catching it and
returning normally. -/
theorem C4_feed_failure_propagates :
    Market.main (Except.ok ⟨"tok", "fbs", "dbs", "wf", "wd"⟩)
        (Except.error (PyErr.other "download failed")) "2024-01-01T00:00:00Z"
        (Except.ok []) (Except.ok []) (fun _ => Except.ok ())
      = Except.error (PyErr.other "download failed") := by
  rfl

/-- C4 (amended): every exception raised inside the `try` block of either
entry point is caught and `main` returns normally, whatever the outcomes
of the orchestration steps; but an environment-loading failure (either
entry point) or a feed-download failure (`market.main` only) happens
before the `try` and propagates out of `main`. -/
theorem C4_trap_covers_try_block_only :
    (∀ env a b f g, ∃ m, Seller.main (Except.ok env) a b f g = Except.ok m) ∧
    (∀ e a b f g, Seller.main (Except.error e) a b f g = Except.error e) ∧
    (∀ cfg rows d a b f, ∃ m, Market.main (Except.ok cfg) (Except.ok rows) d a b f = Except.ok m) ∧
    (∀ cfg e d a b f, Market.main (Except.ok cfg) (Except.error e) d a b f = Except.error e) ∧
    (∀ e fe d a b f, Market.main (Except.error e) fe d a b f = Except.error e) := by
  refine ⟨?_, ?_, ?_, ?_, ?_⟩ <;> intros <;> first
    | exact ⟨_, rfl⟩
    | rfl

/-- `split(".")` never produces an empty piece list, and the piece before
the first dot is the longest dot-free prefix. -/
theorem pySplitDot_spec (l : List Char) :
    pySplitDot l ≠ [] ∧ (pySplitDot l).headD [] = l.takeWhile (fun c => c ≠ '.') := by
  induction l with
  | nil => exact ⟨by simp [pySplitDot], rfl⟩
  | cons c rest ih =>
      obtain ⟨hne, ih⟩ := ih
      by_cases hc : c = '.'
      · subst hc
        refine ⟨by simp [pySplitDot], ?_⟩
        simp [pySplitDot, List.takeWhile_cons]
      · obtain ⟨s, ss, h⟩ : ∃ s ss, pySplitDot rest = s :: ss := by
          cases hh : pySplitDot rest with
          | nil => exact absurd hh hne
          | cons s ss => exact ⟨s, ss, rfl⟩
        rw [h] at ih
        have ih' : s = List.takeWhile (fun c => decide (c ≠ '.')) rest := by
          simpa using ih
        refine ⟨by simp [pySplitDot, hc, h], ?_⟩
        simp only [pySplitDot, if_neg hc, h]
        rw [List.takeWhile_cons, if_pos (by simp [hc])]
        simpa using congrArg (c :: ·) ih'

/-- C5: `price_conversion` yields only ASCII digits, equals the
digit-filtered prefix of its input up to the first `.`, and yields the
empty string when that prefix holds no digit. -/
theorem C5_price_conversion_spec (s : String) :
    (price_conversion s).data.all Char.isDigit = true ∧
    price_conversion s = specNormalize s ∧
    ((s.data.takeWhile (fun c => c ≠ '.')).all (fun c => !c.isDigit) = true →
      price_conversion s = "") := by
  refine ⟨?_, ?_, ?_⟩
  · simp only [price_conversion, List.all_eq_true]
    intro c hc
    exact (List.mem_filter.mp hc).2
  · unfold price_conversion specNormalize
    exact congrArg (fun t => String.mk (t.filter Char.isDigit)) (pySplitDot_spec s.data).2
  · intro h
    have hnil : ((pySplitDot s.data).headD []).filter Char.isDigit = [] := by
      rw [(pySplitDot_spec s.data).2, List.filter_eq_nil_iff]
      intro a ha
      simpa using (List.all_eq_true.mp h) a ha
    unfold price_conversion
    rw [hnil]

/-- C5 witness: a price string with no digit before the first dot is sent
to the empty string, and a concrete spec comparison. -/
theorem C5_witness :
    price_conversion "abc.50" = "" ∧
    price_conversion "5x990.00 rub" = specNormalize "5x990.00 rub" :=
  ⟨(C5_price_conversion_spec "abc.50").2.2 (by decide),
   (C5_price_conversion_spec "5x990.00 rub").2.1⟩

/-- Characterisation of the matching loop of `seller.create_stocks` on a
duplicate-free working set: the final `offer_ids` state is the original
one restricted to the unmatched ids, one id is consumed per emitted
record, every emitted offer id is an original id and a row code, and no
offer id is emitted twice. -/
theorem seller_matchStocks_char (rows : List InventoryRow) :
    ∀ (ids : List String), ids.Nodup →
      ∀ recs rem, Seller.matchStocks rows ids = some (recs, rem) →
        rem = ids.filter (fun i => decide (i ∉ recs.map StockRecord.offer_id)) ∧
        recs.length + rem.length = ids.length ∧
        (∀ r ∈ recs, r.offer_id ∈ ids) ∧
        (recs.map StockRecord.offer_id).Nodup ∧
        (∀ r ∈ recs, r.offer_id ∈ rows.map InventoryRow.code) := by
  induction rows with
  | nil =>
      intro ids hnd recs rem h
      simp only [Seller.matchStocks, Option.some.injEq, Prod.mk.injEq] at h
      obtain ⟨rfl, rfl⟩ := h
      refine ⟨by simp, by simp, by simp, by simp, by simp⟩
  | cons w ws ih =>
      intro ids hnd recs rem h
      simp only [Seller.matchStocks] at h
      by_cases hw : w.code ∈ ids
      · rw [if_pos hw] at h
        cases hres : resolveCount w.quantity with
        | none =>
            simp only [hres] at h
            exact absurd h (by simp)
        | some st =>
            simp only [hres] at h
            cases hm : Seller.matchStocks ws (ids.erase w.code) with
            | none =>
                simp only [hm] at h
                exact absurd h (by simp)
            | some p =>
                obtain ⟨recs', rem'⟩ := p
                simp only [hm, Option.some.injEq, Prod.mk.injEq] at h
                obtain ⟨rfl, rfl⟩ := h
                have hnd' : (ids.erase w.code).Nodup := hnd.erase _
                obtain ⟨h1, h2, h3, h4, h5⟩ := ih (ids.erase w.code) hnd' recs' rem' hm
                have hwe : w.code ∉ ids.erase w.code := by
                  rw [List.Nodup.erase_eq_filter hnd]
                  simp
                refine ⟨?_, ?_, ?_, ?_, ?_⟩
                · rw [h1, List.Nodup.erase_eq_filter hnd, List.filter_filter]
                  apply List.filter_congr
                  intro x hx
                  by_cases hx1 : x = w.code <;> by_cases hx2 : x ∈ recs'.map StockRecord.offer_id <;>
                    simp [hx1, hx2]
                · have hlen : (ids.erase w.code).length = ids.length - 1 :=
                    List.length_erase_of_mem hw
                  have hpos : 0 < ids.length := List.length_pos.mpr (List.ne_nil_of_mem hw)
                  simp only [List.length_cons]
                  omega
                · intro r hr
                  rcases List.mem_cons.mp hr with rfl | hr
                  · exact hw
                  · exact List.mem_of_mem_erase (h3 r hr)
                · simp only [List.map_cons, List.nodup_cons]
                  refine ⟨?_, h4⟩
                  intro hmem
                  obtain ⟨r, hr, he⟩ := List.mem_map.mp hmem
                  exact hwe (he ▸ h3 r hr)
                · intro r hr
                  rcases List.mem_cons.mp hr with rfl | hr
                  · simp
                  · simp only [List.map_cons, List.mem_cons]
                    exact Or.inr (by simpa using h5 r hr)
      · rw [if_neg hw] at h
        obtain ⟨h1, h2, h3, h4, h5⟩ := ih ids hnd recs rem h
        refine ⟨h1, h2, h3, h4, ?_⟩
        intro r hr
        simp only [List.map_cons, List.mem_cons]
        exact Or.inr (by simpa using h5 r hr)

/-- The matching loop, run on the working set restricted to ids not yet
seen, emits exactly the records the spec-side first-match-wins
description produces. -/
theorem seller_matchStocks_spec (rows : List InventoryRow) :
    ∀ (ids seen : List String), ids.Nodup →
      (Seller.matchStocks rows (ids.filter (fun i => decide (i ∉ seen)))).map Prod.fst
        = specMatched rows ids seen := by
  induction rows with
  | nil => intro ids seen hnd; rfl
  | cons w ws ih =>
      intro ids seen hnd
      by_cases hw : w.code ∈ ids ∧ w.code ∉ seen
      · have hmem : w.code ∈ ids.filter (fun i => decide (i ∉ seen)) := by
          simp only [List.mem_filter, decide_eq_true_eq]
          exact hw
        have key : (ids.filter (fun i => decide (i ∉ seen))).erase w.code
            = ids.filter (fun i => decide (i ∉ w.code :: seen)) := by
          rw [List.Nodup.erase_eq_filter (hnd.filter _), List.filter_filter]
          apply List.filter_congr
          intro x hx
          by_cases hx1 : x = w.code <;> by_cases hx2 : x ∈ seen <;>
            simp [hx1, hx2]
        simp only [Seller.matchStocks, specMatched, if_pos hmem, if_pos hw, key]
        cases hres : resolveCount w.quantity with
        | none => rfl
        | some st =>
            have := ih ids (w.code :: seen) hnd
            cases hm : Seller.matchStocks ws (ids.filter (fun i => decide (i ∉ w.code :: seen))) with
            | none =>
                rw [hm] at this
                simp only [Option.map] at this
                rw [← this]
                rfl
            | some p =>
                obtain ⟨recs', rem'⟩ := p
                rw [hm] at this
                simp only [Option.map] at this
                rw [← this]
                rfl
      · have hmem : w.code ∉ ids.filter (fun i => decide (i ∉ seen)) := by
          simp only [List.mem_filter, decide_eq_true_eq]
          exact fun hcon => hw hcon
        simp only [Seller.matchStocks, specMatched, if_neg hmem, if_neg hw]
        exact ih ids seen hnd

/-- The Yandex matching loop is the Ozon one with each record translated
to the Yandex shape. -/
theorem market_matchStocks_eq (warehouse_id date : String) (rows : List InventoryRow) :
    ∀ ids, Market.matchStocks warehouse_id date rows ids
      = (Seller.matchStocks rows ids).map
          (fun p => (p.1.map (toMarketStock warehouse_id date), p.2)) := by
  induction rows with
  | nil => intro ids; rfl
  | cons w ws ih =>
      intro ids
      by_cases hw : w.code ∈ ids
      · simp only [Market.matchStocks, Seller.matchStocks, if_pos hw]
        cases hres : resolveCount w.quantity with
        | none => rfl
        | some st =>
            rw [ih (ids.erase w.code)]
            cases hm : Seller.matchStocks ws (ids.erase w.code) with
            | none => rfl
            | some p => obtain ⟨recs', rem'⟩ := p; rfl
      · simp only [Market.matchStocks, Seller.matchStocks, if_neg hw]
        exact ih ids

/-- `market.create_stocks` is `seller.create_stocks` with every record
translated to the Yandex shape. -/
theorem market_create_stocks_eq (rows : List InventoryRow) (ids : List String)
    (warehouse_id date : String) :
    Market.create_stocks rows ids warehouse_id date
      = (Seller.create_stocks rows ids).map
          (fun p => (p.1.map (toMarketStock warehouse_id date), p.2)) := by
  unfold Market.create_stocks Seller.create_stocks
  rw [market_matchStocks_eq]
  cases Seller.matchStocks rows ids with
  | none => rfl
  | some p =>
      obtain ⟨recs, rem⟩ := p
      simp [toMarketStock, List.map_append]

/-- Unfolding of a successful `seller.create_stocks` run: matched records
followed by the zero-stock fallbacks, with all the matching-loop facts. -/
theorem seller_create_stocks_char (rows : List InventoryRow) (ids : List String)
    (hnd : ids.Nodup) (st : List StockRecord) (rem : List String)
    (h : Seller.create_stocks rows ids = some (st, rem)) :
    ∃ recs, Seller.matchStocks rows ids = some (recs, rem) ∧
      st = recs ++ rem.map (fun i => ⟨i, 0⟩) ∧
      rem = ids.filter (fun i => decide (i ∉ recs.map StockRecord.offer_id)) ∧
      recs.length + rem.length = ids.length ∧
      (∀ r ∈ recs, r.offer_id ∈ ids) ∧
      (recs.map StockRecord.offer_id).Nodup ∧
      (∀ r ∈ recs, r.offer_id ∈ rows.map InventoryRow.code) := by
  unfold Seller.create_stocks at h
  cases hm : Seller.matchStocks rows ids with
  | none => rw [hm] at h; exact absurd h (by simp)
  | some p =>
      obtain ⟨recs, rem'⟩ := p
      rw [hm] at h
      simp only [Option.map, Option.some.injEq, Prod.mk.injEq] at h
      obtain ⟨h1, h2⟩ := h
      subst h2
      obtain ⟨c1, c2, c3, c4, c5⟩ := seller_matchStocks_char rows ids hnd recs rem' hm
      exact ⟨recs, rfl, h1.symm, c1, c2, c3, c4, c5⟩

/-- The offer ids of a `seller.create_stocks` output: matched ids first,
then the remaining working set. -/
theorem seller_create_stocks_map_offer_id (recs : List StockRecord) (rem : List String) :
    (recs ++ rem.map (fun i => (⟨i, 0⟩ : StockRecord))).map StockRecord.offer_id
      = recs.map StockRecord.offer_id ++ rem := by
  rw [List.map_append, List.map_map]
  have h : (StockRecord.offer_id ∘ fun i => (⟨i, 0⟩ : StockRecord)) = id := rfl
  rw [h, List.map_id]

/-- The spec §8 invariant for `seller.create_stocks`: one record per
original offer id, no more, no less. -/
theorem seller_create_stocks_invariant (rows : List InventoryRow) (ids : List String)
    (hnd : ids.Nodup) (st : List StockRecord) (rem : List String)
    (h : Seller.create_stocks rows ids = some (st, rem)) :
    st.length = ids.length ∧ (∀ r ∈ st, r.offer_id ∈ ids) ∧
    (st.map StockRecord.offer_id).Nodup ∧
    (∀ i ∈ ids, i ∈ st.map StockRecord.offer_id) := by
  obtain ⟨recs, hm, hst, c1, c2, c3, c4, c5⟩ :=
    seller_create_stocks_char rows ids hnd st rem h
  have hmap : st.map StockRecord.offer_id = recs.map StockRecord.offer_id ++ rem := by
    rw [hst]; exact seller_create_stocks_map_offer_id recs rem
  refine ⟨?_, ?_, ?_, ?_⟩
  · rw [hst, List.length_append, List.length_map]
    omega
  · intro r hr
    rw [hst] at hr
    rcases List.mem_append.mp hr with hr | hr
    · exact c3 r hr
    · obtain ⟨i, hi, rfl⟩ := List.mem_map.mp hr
      have := c1 ▸ hi
      exact (List.mem_filter.mp this).1
  · rw [hmap]
    refine List.Nodup.append c4 ?_ ?_
    · rw [c1]; exact hnd.filter _
    · intro x hx1 hx2
      have := c1 ▸ hx2
      have hdec := (List.mem_filter.mp this).2
      rw [decide_eq_true_eq] at hdec
      exact hdec hx1
  · intro i hi
    rw [hmap]
    by_cases hrec : i ∈ recs.map StockRecord.offer_id
    · exact List.mem_append.mpr (Or.inl hrec)
    · refine List.mem_append.mpr (Or.inr ?_)
      rw [c1]
      exact List.mem_filter.mpr ⟨hi, by simpa using hrec⟩

/-- C1: for a duplicate-free offer-id collection, both stock builders
return one record per original offer id — the output length equals the
collection's size, every record's offer id is an original id, no id
appears twice, and every original id appears. -/
theorem C1_stock_builder_one_record_per_offer (rows : List InventoryRow)
    (ids : List String) (hnd : ids.Nodup) :
    (∀ st rem, Seller.create_stocks rows ids = some (st, rem) →
       st.length = ids.length ∧ (∀ r ∈ st, r.offer_id ∈ ids) ∧
       (st.map StockRecord.offer_id).Nodup ∧
       (∀ i ∈ ids, i ∈ st.map StockRecord.offer_id)) ∧
    (∀ warehouse_id date mst mrem,
       Market.create_stocks rows ids warehouse_id date = some (mst, mrem) →
       mst.length = ids.length ∧ (∀ r ∈ mst, r.sku ∈ ids) ∧
       (mst.map Market.StockRecord.sku).Nodup ∧
       (∀ i ∈ ids, i ∈ mst.map Market.StockRecord.sku)) := by
  refine ⟨fun st rem h => seller_create_stocks_invariant rows ids hnd st rem h, ?_⟩
  intro warehouse_id date mst mrem h
  rw [market_create_stocks_eq] at h
  cases hs : Seller.create_stocks rows ids with
  | none => rw [hs] at h; exact absurd h (by simp)
  | some p =>
      obtain ⟨st, rem⟩ := p
      rw [hs] at h
      simp only [Option.map, Option.some.injEq, Prod.mk.injEq] at h
      obtain ⟨h1, h2⟩ := h
      subst h1
      obtain ⟨l1, l2, l3, l4⟩ := seller_create_stocks_invariant rows ids hnd st rem hs
      have hsku : (st.map (toMarketStock warehouse_id date)).map Market.StockRecord.sku
          = st.map StockRecord.offer_id := by
        rw [List.map_map]
        simp [Function.comp, toMarketStock, Market.stockRecordOf]
      refine ⟨?_, ?_, ?_, ?_⟩
      · rw [List.length_map]; exact l1
      · intro r hr
        obtain ⟨r', hr', rfl⟩ := List.mem_map.mp hr
        exact l2 r' hr'
      · rw [hsku]; exact l3
      · intro i hi
        rw [hsku]; exact l4 i hi

/-- C1 witness: a run with one matched and one unmatched offer id. -/
theorem C1_witness :
    ([(⟨"1", (5 : Int)⟩ : StockRecord), ⟨"3", 0⟩].length
        = (["1", "3"] : List String).length) ∧
    (([(⟨"1", (5 : Int)⟩ : StockRecord), ⟨"3", 0⟩]).map StockRecord.offer_id).Nodup :=
  ⟨((C1_stock_builder_one_record_per_offer [⟨"1", "5", "p"⟩] ["1", "3"]
      (by decide)).1 [⟨"1", 5⟩, ⟨"3", 0⟩] ["3"] (by decide)).1,
   ((C1_stock_builder_one_record_per_offer [⟨"1", "5", "p"⟩] ["1", "3"]
      (by decide)).1 [⟨"1", 5⟩, ⟨"3", 0⟩] ["3"] (by decide)).2.2.1⟩

/-- C9: on a duplicate-free offer-id collection both stock builders
produce exactly the spec-side output: matched records first in
inventory-row order with first match winning, then the zero-count
fallbacks in the original collection's order restricted to the unmatched
ids. -/
theorem C9_stock_builder_order (rows : List InventoryRow) (ids : List String)
    (hnd : ids.Nodup) :
    (Seller.create_stocks rows ids).map Prod.fst = specStocks rows ids ∧
    ∀ warehouse_id date,
      (Market.create_stocks rows ids warehouse_id date).map Prod.fst
        = (specStocks rows ids).map (List.map (toMarketStock warehouse_id date)) := by
  have hfilter : ids.filter (fun i => decide (i ∉ ([] : List String))) = ids := by
    simp
  have hspec := seller_matchStocks_spec rows ids [] hnd
  rw [hfilter] at hspec
  have hseller : (Seller.create_stocks rows ids).map Prod.fst = specStocks rows ids := by
    unfold Seller.create_stocks specStocks
    rw [← hspec]
    cases hm : Seller.matchStocks rows ids with
    | none => rfl
    | some p =>
        obtain ⟨recs, rem⟩ := p
        obtain ⟨c1, _, _, _, _⟩ := seller_matchStocks_char rows ids hnd recs rem hm
        simp only [Option.map]
        rw [← c1]
  refine ⟨hseller, ?_⟩
  intro warehouse_id date
  rw [market_create_stocks_eq, Option.map_map, ← hseller, Option.map_map]
  rfl

/-- C9 witness: the spec §8 scenario — inventory codes 1 (qty 5) and
2 (qty ">10"), offers 1, 2, 3. -/
theorem C9_witness :
    (Seller.create_stocks [⟨"1", "5", "p"⟩, ⟨"2", ">10", "q"⟩]
        ["1", "2", "3"]).map Prod.fst
      = specStocks [⟨"1", "5", "p"⟩, ⟨"2", ">10", "q"⟩] ["1", "2", "3"] ∧
    specStocks [⟨"1", "5", "p"⟩, ⟨"2", ">10", "q"⟩] ["1", "2", "3"]
      = some [⟨"1", 5⟩, ⟨"2", 100⟩, ⟨"3", 0⟩] :=
  ⟨(C9_stock_builder_order [⟨"1", "5", "p"⟩, ⟨"2", ">10", "q"⟩] ["1", "2", "3"]
      (by decide)).1,
   by decide⟩

/-- An offer id with no matching inventory row ends in the output with a
zero-stock record. -/
theorem seller_unmatched_zero (rows : List InventoryRow) (ids : List String)
    (hnd : ids.Nodup) (st : List StockRecord) (rem : List String)
    (h : Seller.create_stocks rows ids = some (st, rem)) (i : String)
    (hi : i ∈ ids) (hrow : ∀ w ∈ rows, w.code ≠ i) :
    (⟨i, 0⟩ : StockRecord) ∈ st := by
  obtain ⟨recs, hm, hst, c1, c2, c3, c4, c5⟩ :=
    seller_create_stocks_char rows ids hnd st rem h
  have hnotrec : i ∉ recs.map StockRecord.offer_id := by
    intro hcon
    obtain ⟨r, hr, he⟩ := List.mem_map.mp hcon
    have hc := c5 r hr
    rw [he] at hc
    obtain ⟨w, hw, hwc⟩ := List.mem_map.mp hc
    exact hrow w hw hwc
  have hrem : i ∈ rem := by
    rw [c1]
    exact List.mem_filter.mpr ⟨hi, by simpa using hnotrec⟩
  rw [hst]
  exact List.mem_append.mpr (Or.inr (List.mem_map.mpr ⟨i, hrem, rfl⟩))

/-- C7: the quantity mapping of the stock builders — `">10"` gives count
100, `"1"` gives count 0, any other value is parsed by Python `int`
(`"7"` gives 7), and an offer with no matching inventory row gets
count 0 in both variants. -/
theorem C7_quantity_mapping :
    resolveCount ">10" = some 100 ∧
    resolveCount "1" = some 0 ∧
    resolveCount "7" = some 7 ∧
    (∀ q, q ≠ ">10" → q ≠ "1" → resolveCount q = pyInt q) ∧
    (∀ rows ids st rem i, ids.Nodup →
       Seller.create_stocks rows ids = some (st, rem) → i ∈ ids →
       (∀ w ∈ rows, w.code ≠ i) → (⟨i, 0⟩ : StockRecord) ∈ st) ∧
    (∀ rows ids warehouse_id date mst mrem i, ids.Nodup →
       Market.create_stocks rows ids warehouse_id date = some (mst, mrem) →
       i ∈ ids → (∀ w ∈ rows, w.code ≠ i) →
       Market.stockRecordOf warehouse_id date i 0 ∈ mst) := by
  refine ⟨by decide, by decide, by decide, ?_, ?_, ?_⟩
  · intro q h1 h2
    unfold resolveCount
    rw [if_neg h1, if_neg h2]
  · intro rows ids st rem i hnd h hi hrow
    exact seller_unmatched_zero rows ids hnd st rem h i hi hrow
  · intro rows ids warehouse_id date mst mrem i hnd h hi hrow
    rw [market_create_stocks_eq] at h
    cases hs : Seller.create_stocks rows ids with
    | none => rw [hs] at h; exact absurd h (by simp)
    | some p =>
        obtain ⟨st, rem⟩ := p
        rw [hs] at h
        simp only [Option.map, Option.some.injEq, Prod.mk.injEq] at h
        obtain ⟨h1, h2⟩ := h
        subst h1
        exact List.mem_map.mpr
          ⟨⟨i, 0⟩, seller_unmatched_zero rows ids hnd st rem hs i hi hrow, rfl⟩

/-- C7 witness: the sentinel and parse cases, and a concrete unmatched
offer receiving stock 0. -/
theorem C7_witness :
    resolveCount "7" = pyInt "7" ∧
    ((⟨"3", 0⟩ : StockRecord) ∈ [(⟨"1", (5 : Int)⟩ : StockRecord), ⟨"3", 0⟩]) :=
  ⟨C7_quantity_mapping.2.2.2.1 "7" (by decide) (by decide),
   C7_quantity_mapping.2.2.2.2.1 [⟨"1", "5", "p"⟩] ["1", "3"]
     [⟨"1", 5⟩, ⟨"3", 0⟩] ["3"] "3" (by decide) (by decide) (by decide)
     (by decide)⟩

/-- Chunk count of a non-empty list: one more than after dropping a
chunk. -/
theorem numChunks_succ (n len : Nat) (hn : 0 < n) (hl : 0 < len) :
    (len + n - 1) / n = (len - 1) / n + 1 := by
  have h1 : len + n - 1 = (len - 1) + n := by omega
  rw [h1, Nat.add_div_right _ hn]

/-- Chunk count of the list that remains after dropping one chunk. -/
theorem numChunks_drop (n len : Nat) (hn : 0 < n) (hl : 0 < len) :
    (len - n + n - 1) / n = (len - 1) / n := by
  rcases Nat.lt_or_ge n len with h | h
  · have h1 : len - n + n - 1 = (len - 1 - n) + n := by omega
    rw [h1, Nat.add_div_right _ hn]
    have h2 : len - 1 = (len - 1 - n) + n := by omega
    conv_rhs => rw [h2]
    rw [Nat.add_div_right _ hn]
  · have h0 : len - n = 0 := by omega
    rw [h0]
    have h1 : 0 + n - 1 = n - 1 := by omega
    rw [h1, Nat.div_eq_of_lt (by omega), Nat.div_eq_of_lt (by omega)]

/-- `divide` of the empty list is the empty sequence of slices. -/
theorem divide_nil (n : Nat) : divide ([] : List α) n = [] := by
  have h : (n - 1) / n = 0 := by
    cases n with
    | zero => simp
    | succ m => exact Nat.div_eq_of_lt (by omega)
  simp [divide, h]

/-- Unfolding of `divide` on a non-empty list: the first slice of length
at most `n` followed by `divide` of the rest. -/
theorem divide_step {n : Nat} {lst : List α} (hn : 0 < n) (hl : lst ≠ []) :
    divide lst n = lst.take n :: divide (lst.drop n) n := by
  have hlen : 0 < lst.length := List.length_pos.mpr hl
  unfold divide
  rw [List.length_drop, numChunks_succ n lst.length hn hlen,
    numChunks_drop n lst.length hn hlen, List.range'_succ, List.map_cons,
    List.drop_zero]
  congr 1
  have hshift : (List.range' 0 ((lst.length - 1) / n) n).map (fun x => n + x)
      = List.range' (n + 0) ((lst.length - 1) / n) n :=
    List.map_add_range' n 0 ((lst.length - 1) / n) n
  rw [Nat.add_zero] at hshift
  rw [Nat.zero_add, ← hshift, List.map_map]
  apply List.map_congr_left
  intro i _
  simp only [Function.comp_apply]
  rw [List.drop_drop]

/-- The three batching guarantees, by strong induction on the list
length. -/
theorem divide_props (n : Nat) (hn : 0 < n) :
    ∀ (fuel : Nat) (lst : List α), lst.length ≤ fuel →
      (divide lst n).flatten = lst ∧
      (∀ c ∈ (divide lst n).dropLast, c.length = n) ∧
      (∀ c ∈ divide lst n, c ≠ []) := by
  intro fuel
  induction fuel with
  | zero =>
      intro lst h
      have hnil : lst = [] := List.length_eq_zero.mp (by omega)
      subst hnil
      simp [divide_nil]
  | succ m ih =>
      intro lst h
      by_cases hl : lst = []
      · subst hl
        simp [divide_nil]
      · have hlen : 0 < lst.length := List.length_pos.mpr hl
        have hdrop : (lst.drop n).length ≤ m := by
          rw [List.length_drop]
          omega
        obtain ⟨hj, hd, hne⟩ := ih (lst.drop n) hdrop
        rw [divide_step hn hl]
        refine ⟨?_, ?_, ?_⟩
        · rw [List.flatten_cons, hj, List.take_append_drop]
        · by_cases hdnil : lst.drop n = []
          · rw [hdnil, divide_nil]
            intro c hc
            simp at hc
          · have hcons : divide (lst.drop n) n ≠ [] := by
              rw [divide_step hn hdnil]
              simp
            rw [List.dropLast_cons_of_ne_nil hcons]
            intro c hc
            rcases List.mem_cons.mp hc with rfl | hc
            · have h2 : ¬ lst.length ≤ n := fun hcon => hdnil (List.drop_eq_nil_iff.mpr hcon)
              rw [List.length_take]
              omega
            · exact hd c hc
        · intro c hc
          rcases List.mem_cons.mp hc with rfl | hc
          · intro hcon
            rcases List.take_eq_nil_iff.mp hcon with h0 | h0
            · omega
            · exact hl h0
          · exact hne c hc

/-- C6: for every list and positive chunk size, concatenating the slices
of `divide` reproduces the list exactly, every slice except possibly the
last has length exactly `n`, every slice (the last included) is
non-empty, and the empty list yields no slices. -/
theorem C6_divide_reassembles (lst : List α) (n : Nat) (hn : 0 < n) :
    (divide lst n).flatten = lst ∧
    (∀ c ∈ (divide lst n).dropLast, c.length = n) ∧
    (∀ c ∈ divide lst n, c ≠ []) ∧
    divide ([] : List α) n = [] := by
  obtain ⟨h1, h2, h3⟩ := divide_props n hn lst.length lst le_rfl
  exact ⟨h1, h2, h3, divide_nil n⟩

/-- C6 witness: batching five elements by two. -/
theorem C6_witness :
    (divide [1, 2, 3, 4, 5] 2).flatten = [1, 2, 3, 4, 5] ∧
    divide ([] : List Nat) 2 = [] :=
  ⟨(C6_divide_reassembles [1, 2, 3, 4, 5] 2 (by decide)).1,
   (C6_divide_reassembles [1, 2, 3, 4, 5] 2 (by decide)).2.2.2⟩

/-- `seller.create_prices` keeps exactly the rows whose code is a known
offer id, in row order. -/
theorem seller_create_prices_filter (rows : List InventoryRow) (ids : List String) :
    Seller.create_prices rows ids
      = (rows.filter (fun w => decide (w.code ∈ ids))).map Seller.priceRecordOf := by
  induction rows with
  | nil => rfl
  | cons w ws ih =>
      by_cases hw : w.code ∈ ids
      · simp only [Seller.create_prices, if_pos hw, List.filter_cons,
          decide_eq_true hw, ih]
        rfl
      · simp only [Seller.create_prices, if_neg hw, List.filter_cons, ih]
        rw [decide_eq_false hw]
        rfl

/-- The threaded-state form of `seller.create_prices` computes the same
records and hands the `offer_ids` list back unchanged. -/
theorem seller_create_prices_loop_eq (rows : List InventoryRow) (ids : List String) :
    Seller.create_prices_loop rows ids = (Seller.create_prices rows ids, ids) := by
  induction rows with
  | nil => rfl
  | cons w ws ih =>
      simp only [Seller.create_prices_loop, Seller.create_prices, ih]

/-- The ids of a successful `market.create_prices` output are the codes of
the rows whose code is a known offer id, in row order. -/
theorem market_create_prices_ids (rows : List InventoryRow) (ids : List String) :
    ∀ ps, Market.create_prices rows ids = some ps →
      ps.map Market.PriceRecord.id
        = (rows.filter (fun w => decide (w.code ∈ ids))).map InventoryRow.code := by
  induction rows with
  | nil =>
      intro ps h
      simp only [Market.create_prices, Option.some.injEq] at h
      subst h
      rfl
  | cons w ws ih =>
      intro ps h
      simp only [Market.create_prices] at h
      by_cases hw : w.code ∈ ids
      · rw [if_pos hw] at h
        cases hv : pyInt (price_conversion w.price) with
        | none =>
            simp only [hv] at h
            exact absurd h (by simp)
        | some v =>
            simp only [hv] at h
            cases hm : Market.create_prices ws ids with
            | none =>
                simp only [hm] at h
                exact absurd h (by simp)
            | some ps' =>
                simp only [hm, Option.some.injEq] at h
                subst h
                simp only [List.map_cons, List.filter_cons, decide_eq_true hw,
                  ih ps' hm]
                rfl
      · rw [if_neg hw] at h
        simp only [List.filter_cons]
        rw [decide_eq_false hw]
        exact ih ps h

/-- C8: `create_prices` emits exactly one record per inventory row whose
code is a known offer id, in inventory-row order, with no fallback for
unmatched offers; and the `offer_ids` collection is handed back
unchanged. -/
theorem C8_price_builder_matched_rows_only (rows : List InventoryRow) (ids : List String) :
    Seller.create_prices rows ids
      = (rows.filter (fun w => decide (w.code ∈ ids))).map Seller.priceRecordOf ∧
    Seller.create_prices_loop rows ids = (Seller.create_prices rows ids, ids) ∧
    (∀ ps, Market.create_prices rows ids = some ps →
       ps.map Market.PriceRecord.id
         = (rows.filter (fun w => decide (w.code ∈ ids))).map InventoryRow.code ∧
       ps.length = (rows.filter (fun w => decide (w.code ∈ ids))).length) := by
  refine ⟨seller_create_prices_filter rows ids,
    seller_create_prices_loop_eq rows ids, ?_⟩
  intro ps h
  have hids := market_create_prices_ids rows ids ps h
  refine ⟨hids, ?_⟩
  have := congrArg List.length hids
  simpa using this

/-- C8 witness: offers 1, 2, 3 with inventory rows for codes 1 and 2 —
two price records, none for offer 3. -/
theorem C8_witness :
    Seller.create_prices [⟨"1", "5", "1000.00"⟩, ⟨"2", "6", "2000.00"⟩]
        ["1", "2", "3"]
      = ([⟨"1", "5", "1000.00"⟩, ⟨"2", "6", "2000.00"⟩].filter
          (fun w => decide (w.code ∈ (["1", "2", "3"] : List String)))).map
          Seller.priceRecordOf ∧
    ([(⟨"1", ⟨1000, "RUR"⟩⟩ : Market.PriceRecord), ⟨"2", ⟨2000, "RUR"⟩⟩].map
        Market.PriceRecord.id
      = ([⟨"1", "5", "1000.00"⟩, ⟨"2", "6", "2000.00"⟩].filter
          (fun w => decide (w.code ∈ (["1", "2", "3"] : List String)))).map
          InventoryRow.code) :=
  ⟨(C8_price_builder_matched_rows_only
      [⟨"1", "5", "1000.00"⟩, ⟨"2", "6", "2000.00"⟩] ["1", "2", "3"]).1,
   ((C8_price_builder_matched_rows_only
      [⟨"1", "5", "1000.00"⟩, ⟨"2", "6", "2000.00"⟩] ["1", "2", "3"]).2.2
      [⟨"1", ⟨1000, "RUR"⟩⟩, ⟨"2", ⟨2000, "RUR"⟩⟩] (by decide)).1⟩

/-- C4 witness: a read timeout raised inside the `try` block of
`seller.main` is trapped and `main` returns normally. -/
theorem C4_witness :
    ∃ m, Seller.main (Except.ok ("t", "c")) (Except.error PyErr.readTimeout)
        (Except.ok []) (fun _ => Except.ok ()) (fun _ => Except.ok ())
      = Except.ok m :=
  C4_trap_covers_try_block_only.1 ("t", "c") (Except.error PyErr.readTimeout)
    (Except.ok []) (fun _ => Except.ok ()) (fun _ => Except.ok ())
